import Mathlib

/-!
Shallow embedding of the ST7789U_RPI display driver
(src/ST7789U_RPI/ST7789Display.py) and proofs about it.

The pixel encoder `image_to_data`, the chunked SPI `send` primitive,
`set_window`, `reset`, `set_backlight`, `display` and the constructor's
configuration validation are translated into pure Lean functions; the
effectful methods return the list of GPIO/sleep/SPI effects they perform
instead of performing them.
-/

namespace ST7789U

/-- An RGB pixel as it sits in the numpy image buffer: three channel
values (uint8 in practice, modelled as Nat). -/
structure Pixel where
  r : Nat
  g : Nat
  b : Nat
deriving DecidableEq, Repr

/-- A row-major image buffer: a list of rows of pixels. -/
abbrev Image := List (List Pixel)

/-- The RGB888→RGB565 packing of `image_to_data` (lines 16–24): the image
is cast to uint16 (`% 65536`), then
`red = (pb & 0xf8) << 8`, `green = (pb & 0xfc) << 3`,
`blue = (pb & 0xf8) >> 3`, combined with `|`.  None of the intermediate
values can exceed 16 bits, so no further wraparound occurs. -/
def rgb565 (p : Pixel) : Nat :=
  (((p.r % 65536) &&& 0xF8) <<< 8) |||
  (((p.g % 65536) &&& 0xFC) <<< 3) |||
  (((p.b % 65536) &&& 0xF8) >>> 3)

/-- The two bytes a uint16 value occupies after `byteswap().tobytes()`:
most-significant byte first (the value is reduced mod 2^16 as numpy's
uint16 store would). -/
def be16 (v : Nat) : List Nat :=
  [v / 256 % 256, v % 256]

/-- `numpy.rot90(m, 1)`: one counter-clockwise quarter turn,
`new[i][j] = old[j][W-1-i]` where `W` is the row length of `old`;
the result has `W` rows of `H = old.length` pixels. -/
def rot90 (m : Image) : Image :=
  let H := m.length
  let W := (m.headD []).length
  (List.range W).map fun i =>
    (List.range H).map fun j =>
      (m.getD j []).getD (W - 1 - i) ⟨0, 0, 0⟩

/-- Serialization of a rotated image: each pixel's RGB565 value as a
big-endian byte pair, concatenated row-major (`result.byteswap().tobytes()`
on the `(H, W, 1)` uint16 array). -/
def packPixels (m : Image) : List Nat :=
  (m.map fun row => (row.map fun p => be16 (rgb565 p)).flatten).flatten

/-- `image_to_data(image, rotation)` (lines 11–27): rotate the image
counter-clockwise by `rotation // 90` quarter turns, pack each pixel to
RGB565 and emit the big-endian byte stream. -/
def image_to_data (image : Image) (rotation : Nat) : List Nat :=
  packPixels (rot90^[rotation / 90] image)

/-- The configuration the `ST7789Display.__init__` keyword arguments fix
(SPI port/cs/mode/speed are irrelevant to the verified behaviour and are
omitted): data/command pin, optional backlight and reset pins, geometry,
rotation, inversion flag and window offsets. -/
structure DisplayConfig where
  dc : Nat
  backlight : Option Nat := none
  rst : Option Nat := none
  width : Nat := 240
  height : Nat := 240
  rotation : Nat := 90
  invert : Bool := true
  offset_left : Nat := 0
  offset_top : Nat := 0
deriving DecidableEq, Repr

/-- The `ValueError` the constructor raises on an invalid configuration
(the spec's error taxonomy calls it `ConfigurationError`). -/
inductive ConfigurationError where
  | invalidRotation (rotation : Nat)
  | invalidGeometry (rotation width height : Nat)
deriving DecidableEq, Repr

/-- The two validation checks at the top of `__init__` (lines 65–69):
reject `rotation ∉ [0, 90, 180, 270]`, then reject
`width != height and rotation in [90, 270]`. -/
def validateConfig (c : DisplayConfig) : Except ConfigurationError Unit :=
  if ¬ (c.rotation = 0 ∨ c.rotation = 90 ∨ c.rotation = 180 ∨ c.rotation = 270) then
    .error (.invalidRotation c.rotation)
  else if c.width ≠ c.height ∧ (c.rotation = 90 ∨ c.rotation = 270) then
    .error (.invalidGeometry c.rotation c.width c.height)
  else
    .ok ()

/-- One observable side effect of a controller method: a GPIO level write,
a wall-clock delay (milliseconds), or one `spi.xfer` transfer. -/
inductive Effect where
  | gpioWrite (pin : Nat) (level : Bool)
  | sleep (ms : Nat)
  | spiXfer (bytes : List Nat)
deriving DecidableEq, Repr

/-- The chunk starts `range(0, N, C)` of the loop in `send`
(line 112): `0, C, 2C, …` while `< N`, i.e. `ceil(N/C)` of them. -/
def chunkStarts (N C : Nat) : List Nat :=
  (List.range ((N + C - 1) / C)).map fun i => i * C

/-- The successive slices `data[start : min(start+C, N)]` transferred by
the loop of `send` (lines 112–114). -/
def sendChunks (C : Nat) (data : List Nat) : List (List Nat) :=
  (chunkStarts data.length C).map fun s => (data.drop s).take C

/-- `send(data, is_data, chunk_size)` for a byte-sequence argument
(lines 106–114): write `is_data` to the D/C pin, then transfer the buffer
in `chunk_size`-byte slices, in order. -/
def send_list (dc : Nat) (data : List Nat) (is_data : Bool) (chunk_size : Nat) :
    List Effect :=
  .gpioWrite dc is_data :: (sendChunks chunk_size data).map .spiXfer

/-- `send(data, is_data, chunk_size)` for a single number (lines 109–110):
the number is masked to 8 bits and wrapped as a one-byte buffer. -/
def send_num (dc : Nat) (v : Nat) (is_data : Bool) (chunk_size : Nat) :
    List Effect :=
  send_list dc [v &&& 0xFF] is_data chunk_size

/-- `command(data)` (line 129): `send` with the D/C line low. -/
def command (dc : Nat) (v : Nat) : List Effect :=
  send_num dc v false 4096

/-- `data(data)` (line 132) for a single byte value: `send` with the
D/C line high. -/
def dataByte (dc : Nat) (v : Nat) : List Effect :=
  send_num dc v true 4096

/-- `data(data)` (line 132) for a byte buffer. -/
def dataBytes (dc : Nat) (bs : List Nat) : List Effect :=
  send_list dc bs true 4096

/-- `set_backlight(value)` (lines 116–119): writes the level to the
backlight pin when one is configured, otherwise does nothing. -/
def set_backlight (c : DisplayConfig) (value : Bool) : List Effect :=
  match c.backlight with
  | none => []
  | some pin => [.gpioWrite pin value]

/-- The `width` property (lines 121–123): configured width at rotation
0/180, configured height otherwise. -/
def reportedWidth (c : DisplayConfig) : Nat :=
  if c.rotation = 0 ∨ c.rotation = 180 then c.width else c.height

/-- The `height` property (lines 125–127): configured height at rotation
0/180, configured width otherwise. -/
def reportedHeight (c : DisplayConfig) : Nat :=
  if c.rotation = 0 ∨ c.rotation = 180 then c.height else c.width

/-- `reset()` (lines 135–142): with no reset pin configured, nothing;
otherwise drive the pin high, sleep 500 ms, low, 500 ms, high, 500 ms. -/
def reset (c : DisplayConfig) : List Effect :=
  match c.rst with
  | none => []
  | some pin =>
      [.gpioWrite pin true, .sleep 500,
       .gpioWrite pin false, .sleep 500,
       .gpioWrite pin true, .sleep 500]

/-- Modelled from the spec: the opcode module `ST7789U_RPI/ST7789.py`
(imported as `from .ST7789 import ST7789`) is not under src/; the spec
names the column-address-set command only as CASET, so its opcode is the
vendor register-map value. -/
def CASET : Nat := 0x2A

/-- Modelled from the spec: row-address-set opcode from the missing
`ST7789.py` module (spec names it RASET). -/
def RASET : Nat := 0x2B

/-- Modelled from the spec: memory-write opcode from the missing
`ST7789.py` module (spec names it RAMWR). -/
def RAMWR : Nat := 0x2C

/-- `set_window(x0, y0, x1, y1)` (lines 228–251): default `x1`/`y1` to
`self._width - 1` / `self._height - 1`, add the top offset to both `y`
coordinates and the left offset to both `x` coordinates, then emit
CASET, the two big-endian byte pairs of `x0`,`x1`, RASET, the pairs of
`y0`,`y1`, and RAMWR. -/
def set_window (c : DisplayConfig) (x0 y0 : Nat := 0)
    (ox1 oy1 : Option Nat := none) : List Effect :=
  let x1 := ox1.getD (c.width - 1)
  let y1 := oy1.getD (c.height - 1)
  let y0 := y0 + c.offset_top
  let y1 := y1 + c.offset_top
  let x0 := x0 + c.offset_left
  let x1 := x1 + c.offset_left
  command c.dc CASET ++
  dataByte c.dc (x0 >>> 8) ++ dataByte c.dc (x0 &&& 0xFF) ++
  dataByte c.dc (x1 >>> 8) ++ dataByte c.dc (x1 &&& 0xFF) ++
  command c.dc RASET ++
  dataByte c.dc (y0 >>> 8) ++ dataByte c.dc (y0 &&& 0xFF) ++
  dataByte c.dc (y1 >>> 8) ++ dataByte c.dc (y1 &&& 0xFF) ++
  command c.dc RAMWR

/-- `display(image)` (lines 253–260): set the full-panel window, encode
the image at the configured rotation, and push the byte stream through
`data()` in 4096-byte slices. -/
def display (c : DisplayConfig) (image : Image) : List Effect :=
  let pixel_bytes := image_to_data image c.rotation
  set_window c ++
  ((sendChunks 4096 pixel_bytes).map fun chunk => dataBytes c.dc chunk).flatten

/-- The SPI transfers of an effect trace, in order. -/
def spiTransfers (es : List Effect) : List (List Nat) :=
  es.filterMap fun e =>
    match e with
    | .spiXfer bs => some bs
    | _ => none

/-- A byte as it appears on the panel's command/data wire: a command byte
(D/C low) or a data byte (D/C high). -/
inductive Wire where
  | cmd (b : Nat)
  | dat (b : Nat)
deriving DecidableEq, Repr

/-- Replay of an effect trace against the state of the D/C line `dc`
(initial level `cur`): each transferred byte is classified as a command
or data byte by the level the line holds when it goes out. -/
def wireTrace (dc : Nat) (cur : Bool) : List Effect → List Wire
  | [] => []
  | .gpioWrite pin lvl :: rest =>
      wireTrace dc (if pin = dc then lvl else cur) rest
  | .sleep _ :: rest => wireTrace dc cur rest
  | .spiXfer bs :: rest =>
      (bs.map fun b => if cur then .dat b else .cmd b) ++ wireTrace dc cur rest

/-! ### Helper lemmas -/

/-- Low byte of a value: masking with `0xFF` is reduction mod 256. -/
lemma land_ff (v : Nat) : v &&& 0xFF = v % 256 := by
  have h := Nat.and_pow_two_sub_one_eq_mod v 8
  norm_num at h
  exact h

/-- High byte of a value: shifting right by 8 is division by 256. -/
lemma shiftr_8 (v : Nat) : v >>> 8 = v / 256 := by
  have h := Nat.shiftRight_eq_div_pow v 8
  norm_num at h
  exact h

/-- `send` applied to a single number issues one D/C write and one
single-byte transfer. -/
lemma send_num_eq (dc v : Nat) (b : Bool) :
    send_num dc v b 4096 = [.gpioWrite dc b, .spiXfer [v &&& 0xFF]] := by
  simp [send_num, send_list, sendChunks, chunkStarts]
  have h1 : List.range 1 = [0] := rfl
  simp [h1, Function.comp]

/-! ### C1: RGB565 bit arithmetic -/

/-- C1: for 8-bit channels the encoder's 16-bit RGB565 value (before
byte-swapping) is `(R & 0xF8)<<8 | (G & 0xFC)<<3 | (B & 0xF8)>>3`, and in
particular (0xF8,0xFC,0xF8) ↦ 0xFFFF, (0,0,0) ↦ 0x0000,
(0xF8,0,0) ↦ 0xF800. -/
theorem rgb565_bit_arithmetic (r g b : Nat)
    (hr : r < 256) (hg : g < 256) (hb : b < 256) :
    rgb565 ⟨r, g, b⟩ =
      ((r &&& 0xF8) <<< 8) ||| ((g &&& 0xFC) <<< 3) ||| ((b &&& 0xF8) >>> 3) ∧
    rgb565 ⟨0xF8, 0xFC, 0xF8⟩ = 0xFFFF ∧
    rgb565 ⟨0, 0, 0⟩ = 0x0000 ∧
    rgb565 ⟨0xF8, 0, 0⟩ = 0xF800 := by
  refine ⟨?_, by decide, by decide, by decide⟩
  unfold rgb565
  dsimp only
  rw [Nat.mod_eq_of_lt (by omega), Nat.mod_eq_of_lt (by omega),
    Nat.mod_eq_of_lt (by omega)]

/-- Witness for C1 at channels (0x12, 0x34, 0x56). -/
theorem rgb565_bit_arithmetic_witness :
    rgb565 ⟨0x12, 0x34, 0x56⟩ =
      ((0x12 &&& 0xF8) <<< 8) ||| ((0x34 &&& 0xFC) <<< 3) ||| ((0x56 &&& 0xF8) >>> 3) ∧
    rgb565 ⟨0xF8, 0xFC, 0xF8⟩ = 0xFFFF ∧
    rgb565 ⟨0, 0, 0⟩ = 0x0000 ∧
    rgb565 ⟨0xF8, 0, 0⟩ = 0xF800 :=
  rgb565_bit_arithmetic 0x12 0x34 0x56 (by decide) (by decide) (by decide)

/-! ### C2: big-endian serialization -/

/-- C2: the encoder serializes each RGB565 value most-significant byte
first and concatenates the pairs row-major; a single-pixel image whose
RGB565 value is 0xF800 encodes to the bytes [0xF8, 0x00], not
[0x00, 0xF8]. -/
theorem serialization_big_endian (image : Image) (p : Pixel)
    (hp : rgb565 p = 0xF800) :
    image_to_data image 0 =
      (image.map fun row =>
        (row.map fun q => [rgb565 q / 256 % 256, rgb565 q % 256]).flatten).flatten ∧
    image_to_data [[p]] 0 = [0xF8, 0x00] ∧
    image_to_data [[p]] 0 ≠ [0x00, 0xF8] := by
  refine ⟨?_, ?_, ?_⟩
  · simp [image_to_data, packPixels, be16]
  · simp [image_to_data, packPixels, be16, hp]
  · simp [image_to_data, packPixels, be16, hp]

/-- Witness for C2 at the pure-red pixel (0xF8, 0, 0). -/
theorem serialization_big_endian_witness :
    image_to_data [[⟨0xF8, 0, 0⟩]] 0 = [0xF8, 0x00] ∧
    image_to_data [[⟨0xF8, 0, 0⟩]] 0 ≠ [0x00, 0xF8] :=
  (serialization_big_endian [[⟨0xF8, 0, 0⟩]] ⟨0xF8, 0, 0⟩ (by decide)).2

/-! ### C7: reported geometry -/

/-- C7: for every configuration that passes validation, the `width` and
`height` accessors return the configured dimensions unchanged at rotation
0/180 and swapped at rotation 90/270. -/
theorem reported_geometry (c : DisplayConfig)
    (_hok : validateConfig c = .ok ()) :
    ((c.rotation = 0 ∨ c.rotation = 180) →
      reportedWidth c = c.width ∧ reportedHeight c = c.height) ∧
    ((c.rotation = 90 ∨ c.rotation = 270) →
      reportedWidth c = c.height ∧ reportedHeight c = c.width) := by
  constructor
  · intro h
    simp [reportedWidth, reportedHeight, h]
  · intro h
    have h0 : ¬ (c.rotation = 0 ∨ c.rotation = 180) := by omega
    simp [reportedWidth, reportedHeight, h0]

/-- Witness for C7 on a square 240×240 configuration at rotation 90. -/
theorem reported_geometry_witness :
    reportedWidth ⟨5, none, none, 240, 240, 90, true, 0, 0⟩ = 240 ∧
    reportedHeight ⟨5, none, none, 240, 240, 90, true, 0, 0⟩ = 240 :=
  (reported_geometry ⟨5, none, none, 240, 240, 90, true, 0, 0⟩ rfl).2
    (Or.inl rfl)

/-! ### C8: optional pins -/

/-- C8: with no reset pin `reset()` performs no effect at all, with no
backlight pin `set_backlight` performs no effect, and with a reset pin
`reset()` drives it high, sleeps 500 ms, low, 500 ms, high, 500 ms. -/
theorem optional_pin_noops (c : DisplayConfig) (v : Bool) (pin : Nat) :
    (c.rst = none → reset c = []) ∧
    (c.backlight = none → set_backlight c v = []) ∧
    (c.rst = some pin → reset c =
      [.gpioWrite pin true, .sleep 500,
       .gpioWrite pin false, .sleep 500,
       .gpioWrite pin true, .sleep 500]) := by
  refine ⟨fun h => ?_, fun h => ?_, fun h => ?_⟩
  · simp [reset, h]
  · simp [set_backlight, h]
  · simp [reset, h]

/-- Witness for C8: a pinless configuration is inert, a configuration
with reset pin 7 emits the full reset pulse. -/
theorem optional_pin_noops_witness :
    reset ⟨5, none, none, 240, 240, 0, true, 0, 0⟩ = [] ∧
    set_backlight ⟨5, none, none, 240, 240, 0, true, 0, 0⟩ true = [] ∧
    reset ⟨5, none, some 7, 240, 240, 0, true, 0, 0⟩ =
      [.gpioWrite 7 true, .sleep 500,
       .gpioWrite 7 false, .sleep 500,
       .gpioWrite 7 true, .sleep 500] :=
  ⟨(optional_pin_noops ⟨5, none, none, 240, 240, 0, true, 0, 0⟩ true 7).1 rfl,
   (optional_pin_noops ⟨5, none, none, 240, 240, 0, true, 0, 0⟩ true 7).2.1 rfl,
   (optional_pin_noops ⟨5, none, some 7, 240, 240, 0, true, 0, 0⟩ true 7).2.2 rfl⟩

/-! ### C5: construction-time validation -/

/-- C5: validation fails exactly when the rotation is not one of
0/90/180/270, or when it is 90 or 270 and the width differs from the
height; rotation 45 is rejected for every geometry, rotation 90 with
240×320 is rejected, and every legal rotation passes on a square panel. -/
theorem configuration_validation (c : DisplayConfig) :
    ((∃ e, validateConfig c = .error e) ↔
      (¬ (c.rotation = 0 ∨ c.rotation = 90 ∨ c.rotation = 180 ∨
          c.rotation = 270) ∨
        ((c.rotation = 90 ∨ c.rotation = 270) ∧ c.width ≠ c.height))) ∧
    (∃ e, validateConfig { c with rotation := 45 } = .error e) ∧
    (∃ e, validateConfig
      { c with rotation := 90, width := 240, height := 320 } = .error e) ∧
    (∀ r, (r = 0 ∨ r = 90 ∨ r = 180 ∨ r = 270) →
      validateConfig { c with rotation := r, height := c.width } = .ok ()) := by
  refine ⟨?_, ?_, ?_, ?_⟩
  · unfold validateConfig
    by_cases h1 : c.rotation = 0 ∨ c.rotation = 90 ∨ c.rotation = 180 ∨
      c.rotation = 270
    · by_cases h2 : c.width ≠ c.height ∧ (c.rotation = 90 ∨ c.rotation = 270)
      · rw [if_neg (not_not.mpr h1), if_pos h2]
        constructor
        · intro _; exact Or.inr ⟨h2.2, h2.1⟩
        · intro _; exact ⟨_, rfl⟩
      · rw [if_neg (not_not.mpr h1), if_neg h2]
        constructor
        · rintro ⟨e, he⟩
          simp at he
        · intro h
          rcases h with h | h
          · exact absurd h1 h
          · exact absurd ⟨h.2, h.1⟩ h2
    · rw [if_pos h1]
      constructor
      · intro _; exact Or.inl h1
      · intro _; exact ⟨_, rfl⟩
  · unfold validateConfig
    simp
  · unfold validateConfig
    simp
  · intro r hr
    unfold validateConfig
    rcases hr with h | h | h | h <;> subst h <;> simp

/-- Witness for C5: the default square 240×240 geometry passes at
rotation 90. -/
theorem configuration_validation_witness :
    validateConfig ⟨5, none, none, 240, 240, 90, true, 0, 0⟩ = .ok () :=
  (configuration_validation ⟨5, none, none, 240, 240, 90, true, 0, 0⟩).2.2.2
    90 (Or.inr (Or.inl rfl))

/-! ### C6: rotation factors through rot90 -/

/-- The number of rows of a rotated image is the length of the first row
of the original. -/
lemma rot90_length (m : Image) : (rot90 m).length = (m.headD []).length := by
  simp [rot90]

/-- Every row of a rotated image has as many pixels as the original had
rows. -/
lemma rot90_row_length (m : Image) :
    ∀ row ∈ rot90 m, row.length = m.length := by
  intro row hrow
  simp only [rot90, List.mem_map, List.mem_range] at hrow
  obtain ⟨i, _, rfl⟩ := hrow
  simp

/-- C6: encoding at rotation `r` equals encoding the image rotated
counter-clockwise by `r/90` quarter turns at rotation 0; in particular at
rotation 90 it equals encoding the once-rotated image, which for a
nonempty W-wide, H-tall image is H wide and W tall. -/
theorem encoding_rotation_equivalence (image : Image) (rotation W H : Nat)
    (hH : image.length = H) (hW : ∀ row ∈ image, row.length = W)
    (hpos : 0 < H) :
    image_to_data image rotation =
      image_to_data (rot90^[rotation / 90] image) 0 ∧
    image_to_data image 90 = image_to_data (rot90 image) 0 ∧
    (rot90 image).length = W ∧
    (∀ row ∈ rot90 image, row.length = H) := by
  refine ⟨?_, ?_, ?_, ?_⟩
  · simp [image_to_data]
  · simp [image_to_data]
  · rw [rot90_length]
    match image, hpos, hH with
    | row :: rest, _, _ =>
      simpa using hW row (by simp)
  · intro row hrow
    rw [rot90_row_length image row hrow, hH]

/-- Witness for C6: the spec's 2×1 test image with two distinct colors,
rotated by 90 degrees. -/
theorem encoding_rotation_equivalence_witness :
    image_to_data [[⟨255, 0, 0⟩, ⟨0, 255, 0⟩]] 90 =
      image_to_data (rot90^[90 / 90] [[⟨255, 0, 0⟩, ⟨0, 255, 0⟩]]) 0 ∧
    (rot90 [[⟨255, 0, 0⟩, ⟨0, 255, 0⟩]]).length = 2 :=
  ⟨(encoding_rotation_equivalence [[⟨255, 0, 0⟩, ⟨0, 255, 0⟩]] 90 2 1
      rfl (by decide) (by decide)).1,
   (encoding_rotation_equivalence [[⟨255, 0, 0⟩, ⟨0, 255, 0⟩]] 90 2 1
      rfl (by decide) (by decide)).2.2.1⟩

/-! ### C3: chunked SPI transfer -/

/-- Ceiling division steps down by one when the numerator loses a full
chunk. -/
lemma ceil_div_succ (N C : Nat) (hC : 0 < C) (hN : 0 < N) :
    (N + C - 1) / C = (N - 1) / C + 1 := by
  have h : N + C - 1 = (N - 1) + C := by omega
  rw [h, Nat.add_div_right _ hC]

/-- An empty buffer yields no chunk starts. -/
lemma chunkStarts_zero (C : Nat) (hC : 0 < C) : chunkStarts 0 C = [] := by
  have h : (C - 1) / C = 0 := Nat.div_eq_of_lt (by omega)
  simp [chunkStarts, h]

/-- For a nonempty buffer the chunk starts are 0 followed by the starts
of the remainder, shifted by one chunk. -/
lemma chunkStarts_pos (N C : Nat) (hC : 0 < C) (hN : 0 < N) :
    chunkStarts N C = 0 :: (chunkStarts (N - C) C).map fun s => C + s := by
  unfold chunkStarts
  have h2 : (N - C + C - 1) / C = (N - 1) / C := by
    rcases le_or_lt N C with h | h
    · have e1 : N - C = 0 := by omega
      rw [e1, Nat.div_eq_of_lt (by omega), Nat.div_eq_of_lt (by omega)]
    · have e1 : N - C + C - 1 = N - 1 := by omega
      rw [e1]
  rw [ceil_div_succ N C hC hN, h2, List.range_succ_eq_map]
  simp only [List.map_cons, List.map_map, Nat.zero_mul]
  congr 1
  apply List.map_congr_left
  intro i _
  simp [Function.comp, Nat.succ_mul, Nat.add_comm, Nat.mul_comm]

/-- An empty buffer produces no chunks. -/
lemma sendChunks_nil (C : Nat) (hC : 0 < C) : sendChunks C [] = [] := by
  simp [sendChunks, chunkStarts_zero C hC]

/-- A nonempty buffer produces its first `C` bytes as the first chunk and
chunks the rest. -/
lemma sendChunks_cons (C : Nat) (hC : 0 < C) (data : List Nat)
    (hd : data ≠ []) :
    sendChunks C data = data.take C :: sendChunks C (data.drop C) := by
  unfold sendChunks
  rw [chunkStarts_pos data.length C hC (List.length_pos.mpr hd)]
  simp only [List.map_cons, List.map_map, List.drop_zero, List.length_drop]
  congr 1
  apply List.map_congr_left
  intro s _
  simp [Function.comp, List.drop_drop, Nat.add_comm]

/-- The number of chunks is the ceiling of buffer length over chunk
size. -/
lemma sendChunks_length (C : Nat) (data : List Nat) :
    (sendChunks C data).length = (data.length + C - 1) / C := by
  simp [sendChunks, chunkStarts]

/-- Every chunk holds at most `C` bytes. -/
lemma sendChunks_le (C : Nat) (data : List Nat) :
    ∀ t ∈ sendChunks C data, t.length ≤ C := by
  intro t ht
  simp only [sendChunks, chunkStarts, List.mem_map, List.mem_range] at ht
  obtain ⟨s, _, rfl⟩ := ht
  simp only [List.length_take]
  omega

/-- Concatenating the chunks restores the buffer. -/
lemma sendChunks_flatten (C : Nat) (hC : 0 < C) (data : List Nat) :
    (sendChunks C data).flatten = data := by
  have key : ∀ n (l : List Nat), l.length ≤ n → (sendChunks C l).flatten = l := by
    intro n
    induction n with
    | zero =>
      intro l hl
      have : l = [] := List.eq_nil_of_length_eq_zero (Nat.le_zero.mp hl)
      subst this
      rw [sendChunks_nil C hC]
      rfl
    | succ n ih =>
      intro l hl
      by_cases hnil : l = []
      · subst hnil
        rw [sendChunks_nil C hC]
        rfl
      · rw [sendChunks_cons C hC l hnil, List.flatten_cons,
          ih (l.drop C) (by simp only [List.length_drop]; omega)]
        exact List.take_append_drop C l
  exact key data.length data le_rfl

/-- Every chunk is nonempty. -/
lemma sendChunks_ne_nil (C : Nat) (hC : 0 < C) (data : List Nat) :
    ∀ t ∈ sendChunks C data, t ≠ [] := by
  intro t ht
  simp only [sendChunks, chunkStarts, List.map_map, List.mem_map,
    List.mem_range, Function.comp] at ht
  obtain ⟨i, hi, rfl⟩ := ht
  rcases Nat.eq_zero_or_pos data.length with h0 | hpos
  · rw [h0] at hi
    have : (0 + C - 1) / C = 0 := Nat.div_eq_of_lt (by omega)
    omega
  · rw [ceil_div_succ data.length C hC hpos] at hi
    have h1 : i ≤ (data.length - 1) / C := by omega
    have h2 : i * C ≤ (data.length - 1) / C * C :=
      Nat.mul_le_mul_right C h1
    have h3 : (data.length - 1) / C * C ≤ data.length - 1 :=
      Nat.div_mul_le_self _ _
    have h4 : i * C < data.length := by omega
    have h5 : 0 < ((data.drop (i * C)).take C).length := by
      simp only [List.length_take, List.length_drop]
      omega
    exact List.ne_nil_of_length_pos h5

/-- The SPI transfers of a concatenation of traces, in order. -/
lemma spiTransfers_append (a b : List Effect) :
    spiTransfers (a ++ b) = spiTransfers a ++ spiTransfers b := by
  simp [spiTransfers]

/-- A trace that is only transfers reports exactly those transfers. -/
lemma spiTransfers_map_xfer (l : List (List Nat)) :
    spiTransfers (l.map Effect.spiXfer) = l := by
  induction l with
  | nil => rfl
  | cons h t ih =>
    simp only [List.map_cons, spiTransfers, List.filterMap_cons] at ih ⊢
    exact congrArg (h :: ·) ih

/-- The SPI transfers of a `send` call on a buffer are its chunks. -/
lemma spiTransfers_send_list (dc : Nat) (data : List Nat) (b : Bool)
    (C : Nat) :
    spiTransfers (send_list dc data b C) = sendChunks C data := by
  simp only [send_list, spiTransfers, List.filterMap_cons]
  exact spiTransfers_map_xfer (sendChunks C data)

/-- C3: `send` on a buffer of length N with chunk size C > 0 issues
exactly ceil(N/C) SPI transfers, each of at most C bytes, whose in-order
concatenation is the original buffer; an empty buffer issues none. -/
theorem send_chunking (dc : Nat) (data : List Nat) (b : Bool) (C : Nat)
    (hC : 0 < C) :
    (spiTransfers (send_list dc data b C)).length =
      (data.length + C - 1) / C ∧
    (∀ t ∈ spiTransfers (send_list dc data b C), t.length ≤ C) ∧
    (spiTransfers (send_list dc data b C)).flatten = data ∧
    (data.length = 0 → spiTransfers (send_list dc data b C) = []) := by
  rw [spiTransfers_send_list]
  refine ⟨sendChunks_length C data, sendChunks_le C data,
    sendChunks_flatten C hC data, fun h0 => ?_⟩
  have : data = [] := List.eq_nil_of_length_eq_zero h0
  subst this
  exact sendChunks_nil C hC

/-- Witness for C3: a 5-byte buffer with chunk size 2 is sent as 3
transfers that reassemble to the buffer. -/
theorem send_chunking_witness :
    (spiTransfers (send_list 0 [1, 2, 3, 4, 5] true 2)).length =
      (5 + 2 - 1) / 2 ∧
    (∀ t ∈ spiTransfers (send_list 0 [1, 2, 3, 4, 5] true 2),
      t.length ≤ 2) ∧
    (spiTransfers (send_list 0 [1, 2, 3, 4, 5] true 2)).flatten =
      [1, 2, 3, 4, 5] ∧
    (([1, 2, 3, 4, 5] : List Nat).length = 0 →
      spiTransfers (send_list 0 [1, 2, 3, 4, 5] true 2) = []) := by
  have h := send_chunking 0 [1, 2, 3, 4, 5] true 2 (by decide)
  simpa using h

/-! ### C4 and C10: the window-setting wire sequence -/

/-- The full wire sequence of `set_window` with explicit bounds: CASET,
the big-endian pair of each x coordinate, RASET, the pair of each y
coordinate, RAMWR; every coordinate byte is the value reduced mod 2^16
and split high-byte-first. -/
lemma wireTrace_set_window (c : DisplayConfig) (x0 y0 x1 y1 : Nat) :
    wireTrace c.dc false (set_window c x0 y0 (some x1) (some y1)) =
      [Wire.cmd CASET,
       Wire.dat ((x0 + c.offset_left) / 256 % 256),
       Wire.dat ((x0 + c.offset_left) % 256),
       Wire.dat ((x1 + c.offset_left) / 256 % 256),
       Wire.dat ((x1 + c.offset_left) % 256),
       Wire.cmd RASET,
       Wire.dat ((y0 + c.offset_top) / 256 % 256),
       Wire.dat ((y0 + c.offset_top) % 256),
       Wire.dat ((y1 + c.offset_top) / 256 % 256),
       Wire.dat ((y1 + c.offset_top) % 256),
       Wire.cmd RAMWR] := by
  have hca : CASET &&& 0xFF = CASET := by decide
  have hra : RASET &&& 0xFF = RASET := by decide
  have hrw : RAMWR &&& 0xFF = RAMWR := by decide
  simp only [set_window, Option.getD_some, command, dataByte, send_num_eq,
    List.cons_append, List.nil_append]
  simp [wireTrace, hca, hra, hrw, shiftr_8, land_ff]

/-- C4: `set_window` emits CASET, the big-endian 16-bit pairs of the
offset-adjusted x bounds, RASET, the pairs of the offset-adjusted y
bounds, then RAMWR, in exactly that order; omitted bounds default to the
configured width-1 and height-1. -/
theorem set_window_wire_sequence (c : DisplayConfig) (x0 y0 x1 y1 : Nat)
    (hx0 : x0 + c.offset_left < 65536) (hx1 : x1 + c.offset_left < 65536)
    (hy0 : y0 + c.offset_top < 65536) (hy1 : y1 + c.offset_top < 65536) :
    wireTrace c.dc false (set_window c x0 y0 (some x1) (some y1)) =
      [Wire.cmd CASET,
       Wire.dat ((x0 + c.offset_left) / 256),
       Wire.dat ((x0 + c.offset_left) % 256),
       Wire.dat ((x1 + c.offset_left) / 256),
       Wire.dat ((x1 + c.offset_left) % 256),
       Wire.cmd RASET,
       Wire.dat ((y0 + c.offset_top) / 256),
       Wire.dat ((y0 + c.offset_top) % 256),
       Wire.dat ((y1 + c.offset_top) / 256),
       Wire.dat ((y1 + c.offset_top) % 256),
       Wire.cmd RAMWR] ∧
    set_window c x0 y0 none none =
      set_window c x0 y0 (some (c.width - 1)) (some (c.height - 1)) := by
  constructor
  · rw [wireTrace_set_window]
    have e0 : (x0 + c.offset_left) / 256 % 256 = (x0 + c.offset_left) / 256 := by
      omega
    have e1 : (x1 + c.offset_left) / 256 % 256 = (x1 + c.offset_left) / 256 := by
      omega
    have e2 : (y0 + c.offset_top) / 256 % 256 = (y0 + c.offset_top) / 256 := by
      omega
    have e3 : (y1 + c.offset_top) / 256 % 256 = (y1 + c.offset_top) / 256 := by
      omega
    rw [e0, e1, e2, e3]
  · rfl

/-- Witness for C4 on a 240×240 panel with offsets (10, 20) and window
(1, 2)–(3, 4). -/
theorem set_window_wire_sequence_witness :
    wireTrace 5 false
      (set_window ⟨5, none, none, 240, 240, 0, true, 10, 20⟩ 1 2
        (some 3) (some 4)) =
      [Wire.cmd CASET,
       Wire.dat 0, Wire.dat 11, Wire.dat 0, Wire.dat 13,
       Wire.cmd RASET,
       Wire.dat 0, Wire.dat 22, Wire.dat 0, Wire.dat 24,
       Wire.cmd RAMWR] :=
  (set_window_wire_sequence ⟨5, none, none, 240, 240, 0, true, 10, 20⟩
    1 2 3 4 (by decide) (by decide) (by decide) (by decide)).1

/-- C10: `set_window` validates nothing: for arbitrarily large
coordinates the emitted big-endian pair for an offset-adjusted value `v`
is `(v div 256) mod 256` then `v mod 256`, i.e. `v` is sent reduced mod
65536, and the call always completes with the same command structure. -/
theorem set_window_no_range_validation (c : DisplayConfig)
    (x0 y0 x1 y1 v : Nat) :
    wireTrace c.dc false (set_window c x0 y0 (some x1) (some y1)) =
      [Wire.cmd CASET,
       Wire.dat ((x0 + c.offset_left) / 256 % 256),
       Wire.dat ((x0 + c.offset_left) % 256),
       Wire.dat ((x1 + c.offset_left) / 256 % 256),
       Wire.dat ((x1 + c.offset_left) % 256),
       Wire.cmd RASET,
       Wire.dat ((y0 + c.offset_top) / 256 % 256),
       Wire.dat ((y0 + c.offset_top) % 256),
       Wire.dat ((y1 + c.offset_top) / 256 % 256),
       Wire.dat ((y1 + c.offset_top) % 256),
       Wire.cmd RAMWR] ∧
    be16 v = [v / 256 % 256, v % 256] ∧
    be16 v = be16 (v % 65536) := by
  refine ⟨wireTrace_set_window c x0 y0 x1 y1, rfl, ?_⟩
  unfold be16
  have h1 : v % 65536 / 256 % 256 = v / 256 % 256 := by omega
  have h2 : v % 65536 % 256 = v % 256 := by omega
  rw [h1, h2]

/-! ### C9: output size and display chunk count -/

/-- One packed row is two bytes per pixel. -/
lemma rowBytes_length (row : List Pixel) :
    ((row.map fun p => be16 (rgb565 p)).flatten).length = 2 * row.length := by
  induction row with
  | nil => rfl
  | cons p rest ih =>
    simp only [List.map_cons, List.flatten_cons, List.length_append,
      List.length_cons]
    rw [ih]
    simp only [be16, List.length_cons, List.length_nil]
    omega

/-- The packed stream is two bytes per pixel over the whole image. -/
lemma packPixels_length (m : Image) :
    (packPixels m).length = 2 * (m.map List.length).sum := by
  induction m with
  | nil => rfl
  | cons row rest ih =>
    simp only [packPixels, List.map_cons, List.flatten_cons,
      List.length_append, List.map_cons, List.sum_cons] at ih ⊢
    rw [rowBytes_length, ih]
    ring

/-- An image all of whose rows are as long as the first row. -/
def uniformRows (m : Image) : Prop :=
  ∀ row ∈ m, row.length = (m.headD []).length

/-- Rotation preserves row uniformity and the total pixel count. -/
lemma rot90_uniform_sum (m : Image) (hu : uniformRows m) :
    uniformRows (rot90 m) ∧
    ((rot90 m).map List.length).sum = (m.map List.length).sum := by
  constructor
  · intro row hrow
    rw [rot90_row_length m row hrow]
    rcases (rot90 m).eq_nil_or_concat with h | _
    · rw [h] at hrow
      cases hrow
    · match hm : rot90 m, hrow with
      | r :: rest, _ =>
        simp only [List.headD_cons]
        have hr : r ∈ rot90 m := by rw [hm]; simp
        rw [rot90_row_length m r hr]
  · have hlen : ∀ row ∈ rot90 m, row.length = m.length := rot90_row_length m
    have h1 : (rot90 m).map List.length =
        List.replicate (rot90 m).length m.length := by
      apply List.eq_replicate_iff.mpr
      refine ⟨by simp, ?_⟩
      intro b hb
      simp only [List.mem_map] at hb
      obtain ⟨row, hrow, rfl⟩ := hb
      exact hlen row hrow
    have h2 : m.map List.length =
        List.replicate m.length (m.headD []).length := by
      apply List.eq_replicate_iff.mpr
      refine ⟨by simp, ?_⟩
      intro b hb
      simp only [List.mem_map] at hb
      obtain ⟨row, hrow, rfl⟩ := hb
      exact hu row hrow
    rw [h1, h2, List.sum_replicate, List.sum_replicate, rot90_length,
      smul_eq_mul, smul_eq_mul, Nat.mul_comm]

/-- Any number of quarter turns preserves the total pixel count. -/
lemma rot90_iter_sum (k : Nat) (m : Image) (hu : uniformRows m) :
    uniformRows (rot90^[k] m) ∧
    ((rot90^[k] m).map List.length).sum = (m.map List.length).sum := by
  induction k with
  | zero => exact ⟨hu, rfl⟩
  | succ k ih =>
    rw [Function.iterate_succ_apply']
    obtain ⟨hu', hsum'⟩ := ih
    obtain ⟨hu'', hsum''⟩ := rot90_uniform_sum _ hu'
    exact ⟨hu'', by rw [hsum'', hsum']⟩

/-- A buffer that fits in one chunk is sent as exactly that chunk. -/
lemma sendChunks_singleton (C : Nat) (data : List Nat) (hC : 0 < C)
    (h1 : data ≠ []) (h2 : data.length ≤ C) :
    sendChunks C data = [data] := by
  rw [sendChunks_cons C hC data h1, List.take_of_length_le h2,
    List.drop_eq_nil_of_le h2, sendChunks_nil C hC]

/-- The SPI transfers of `display` are the window-setup transfers
followed by exactly the 4096-byte chunks of the encoded image. -/
lemma spiTransfers_display (c : DisplayConfig) (image : Image) :
    spiTransfers (display c image) =
      spiTransfers (set_window c) ++
        sendChunks 4096 (image_to_data image c.rotation) := by
  unfold display
  rw [spiTransfers_append]
  congr 1
  have key : ∀ chunks : List (List Nat),
      (∀ t ∈ chunks, t ≠ [] ∧ t.length ≤ 4096) →
      spiTransfers ((chunks.map fun ch => dataBytes c.dc ch).flatten) =
        chunks := by
    intro chunks
    induction chunks with
    | nil => intro _; rfl
    | cons h t ih =>
      intro hp
      simp only [List.map_cons, List.flatten_cons]
      rw [spiTransfers_append, ih fun u hu => hp u (by simp [hu])]
      obtain ⟨hne, hle⟩ := hp h (by simp)
      have : spiTransfers (dataBytes c.dc h) = [h] := by
        rw [dataBytes, spiTransfers_send_list,
          sendChunks_singleton 4096 h (by omega) hne hle]
      rw [this]
      rfl
  apply key
  intro t ht
  exact ⟨sendChunks_ne_nil 4096 (by omega) _ t ht,
    sendChunks_le 4096 _ t ht⟩

/-- C9: an H×W RGB image encodes to exactly 2·W·H bytes at every legal
rotation, and `display` pushes them after the window setup as exactly
ceil(2·W·H/4096) data chunks. -/
theorem encoder_output_size (c : DisplayConfig) (image : Image)
    (W H : Nat) (hH : image.length = H)
    (hW : ∀ row ∈ image, row.length = W)
    (_hr : c.rotation = 0 ∨ c.rotation = 90 ∨ c.rotation = 180 ∨
      c.rotation = 270) :
    (image_to_data image c.rotation).length = 2 * W * H ∧
    spiTransfers (display c image) =
      spiTransfers (set_window c) ++
        sendChunks 4096 (image_to_data image c.rotation) ∧
    (sendChunks 4096 (image_to_data image c.rotation)).length =
      (2 * W * H + 4095) / 4096 := by
  have hu : uniformRows image := by
    intro row hrow
    rcases image with _ | ⟨r, rest⟩
    · cases hrow
    · simp only [List.headD_cons]
      rw [hW row hrow, hW r (by simp)]
  have hsum : (image.map List.length).sum = H * W := by
    have h1 : image.map List.length = List.replicate H W := by
      apply List.eq_replicate_iff.mpr
      refine ⟨by simp [hH], ?_⟩
      intro b hb
      simp only [List.mem_map] at hb
      obtain ⟨row, hrow, rfl⟩ := hb
      exact hW row hrow
    rw [h1, List.sum_replicate, smul_eq_mul]
  have hlen : (image_to_data image c.rotation).length = 2 * W * H := by
    unfold image_to_data
    rw [packPixels_length, (rot90_iter_sum (c.rotation / 90) image hu).2,
      hsum]
    ring
  refine ⟨hlen, spiTransfers_display c image, ?_⟩
  rw [sendChunks_length, hlen]
  omega

/-- Witness for C9: a 1×2 image at rotation 90 encodes to 4 bytes and is
sent as one data chunk. -/
theorem encoder_output_size_witness :
    (image_to_data [[⟨255, 0, 0⟩, ⟨0, 255, 0⟩]] 90).length = 2 * 2 * 1 ∧
    (sendChunks 4096
      (image_to_data [[⟨255, 0, 0⟩, ⟨0, 255, 0⟩]] 90)).length =
      (2 * 2 * 1 + 4095) / 4096 := by
  have h := encoder_output_size ⟨5, none, none, 240, 240, 90, true, 0, 0⟩
    [[⟨255, 0, 0⟩, ⟨0, 255, 0⟩]] 2 1 rfl (by decide)
    (Or.inr (Or.inl rfl))
  exact ⟨h.1, h.2.2⟩

end ST7789U
